import Mathlib

/-
Verification development for the `export` package's series cache
(series cache, sample-interval tracker, counter-reset adjuster and
label/resource extractor).

Modelling conventions:
* Go `labels.Labels` is a slice of name/value pairs scanned linearly by
  `Get`/`Has`; it is embedded as `List (String × String)` with linear-scan
  lookups.
* Go maps `map[uint64]T` are embedded as functions `Nat → Option T`.
* `int64` timestamps are embedded as `Int` (no arithmetic here comes close
  to the 64-bit range), `float64` sample values as exact rationals `Rat`:
  the code only compares (`<`) and subtracts sample values, and both
  operations on finite floats agree with the exact operations up to
  rounding of the result.
* The random refresh jitter (`setNextRefresh`) and the wall clock
  (`time.Now`) are passed in as explicit arguments (`nextR`, `now`).
-/

/-- Label sets: ordered lists of (name, value) pairs, as in `labels.Labels`. -/
abbrev Labels := List (String × String)

/-- Linear-scan membership test, as `labels.Labels.Has`. -/
def hasLabel : Labels → String → Bool
  | [], _ => false
  | l :: ls, n => if l.1 = n then true else hasLabel ls n

/-- Linear-scan lookup returning "" when absent, as `labels.Labels.Get`. -/
def getLabel : Labels → String → String
  | [], _ => ""
  | l :: ls, n => if l.1 = n then l.2 else getLabel ls n

/-- Builder `Set`: replace the value of an existing name, else append. -/
def labelsSet (ls : Labels) (n v : String) : Labels :=
  if hasLabel ls n then ls.map (fun l => if l.1 = n then (n, v) else l)
  else ls ++ [(n, v)]

/-- Builder `Del`: drop every pair with the given name. -/
def labelsDel : Labels → String → Labels
  | [], _ => []
  | l :: ls, n => if l.1 = n then labelsDel ls n else l :: labelsDel ls n

/-- Remove the first pair with the given name, as the `for ... break` loops
in `populate` that delete the `__name__` and `le` labels. -/
def removeFirstLabel : Labels → String → Labels
  | [], _ => []
  | l :: ls, n => if l.1 = n then ls else l :: removeFirstLabel ls n

/-- A label set has pairwise distinct names (an invariant of
`labels.Labels`). -/
def namesNodup (ls : Labels) : Prop := (ls.map Prod.fst).Nodup

/-- Name-distinctness is decidable. -/
instance (ls : Labels) : Decidable (namesNodup ls) :=
  List.nodupDecidable (ls.map Prod.fst)

/-- Modelled from the spec: resource label key `location` (the key constants
are defined in a file of the `export` package outside the provided
sources; the spec lists the monitored-resource identity as
location/cluster/namespace/job/instance). -/
def keyLocation : String := "location"

/-- Modelled from the spec: resource label key `cluster`. -/
def keyCluster : String := "cluster"

/-- Modelled from the spec: resource label key `namespace`. -/
def keyNamespace : String := "namespace"

/-- Modelled from the spec: resource label key `job`. -/
def keyJob : String := "job"

/-- Modelled from the spec: resource label key `instance`. -/
def keyInstance : String := "instance"

/-- Modelled from the spec: the fixed label-count cap (constant defined
outside the provided sources; the spec's scenario uses a cap of 100). -/
def maxLabelCount : Nat := 100

/-- Prometheus metric types (`textparse.MetricType`). -/
inductive MetricType where
  | counter
  | gauge
  | histogram
  | gaugehistogram
  | summary
  | info
  | stateset
  | unknown
deriving DecidableEq

/-- GCM metric kinds (`metric_pb.MetricDescriptor_MetricKind`). -/
inductive MetricKind where
  | unspecified
  | gauge
  | delta
  | cumulative
deriving DecidableEq

/-- GCM value types (`metric_pb.MetricDescriptor_ValueType`). -/
inductive ValueType where
  | unspecified
  | boolType
  | int64
  | double
  | stringType
  | distribution
  | money
deriving DecidableEq

/-- Modelled from the spec: the well-known metric-name suffix
classification (`metricSuffix`, defined outside the provided sources): no
suffix, `_sum`, `_count`, `_bucket`. -/
inductive metricSuffix where
  | sfxNone
  | sfxSum
  | sfxCount
  | sfxBucket
deriving DecidableEq

/-- Metric metadata (`scrape.MetricMetadata`). -/
structure MetricMetadata where
  metric : String
  type : MetricType
  help : String
deriving DecidableEq

/-- Metrics Prometheus writes at scrape time for which no metadata is
exposed (the `internalMetrics` map). -/
def internalMetrics (name : String) : Option MetricMetadata :=
  if name = "up" then
    some { metric := "up", type := MetricType.gauge,
           help := "Up indicates whether the last target scrape was successful." }
  else if name = "scrape_samples_scraped" then
    some { metric := "scrape_samples_scraped", type := MetricType.gauge,
           help := "How many samples were scraped during the last successful scrape." }
  else if name = "scrape_duration_seconds" then
    some { metric := "scrape_duration_seconds", type := MetricType.gauge,
           help := "Duration of the last scrape." }
  else if name = "scrape_samples_post_metric_relabeling" then
    some { metric := "scrape_samples_post_metric_relabeling", type := MetricType.gauge,
           help := "How many samples were ingested after relabeling." }
  else if name = "scrape_series_added" then
    some { metric := "scrape_series_added", type := MetricType.gauge,
           help := "Number of new series added in the last scrape." }
  else none

/-- Metric metadata lookup (`getMetadata`): the scrape target's own
metadata first, then the synthetic `internalMetrics` table. The target's
metadata source is embedded as a function `String → Option MetricMetadata`. -/
def getMetadata (targetMd : String → Option MetricMetadata) (metric : String) :
    Option MetricMetadata :=
  match targetMd metric with
  | some md => some md
  | none => internalMetrics metric

/-- Modelled from the spec: `splitComplexMetricSuffix` (defined outside the
provided sources) strips a well-known complex-metric suffix from a metric
name, returning the base name and the suffix class. -/
def splitComplexMetricSuffix (name : String) : Option (String × metricSuffix) :=
  if name.endsWith "_bucket" then some (name.dropRight 7, metricSuffix.sfxBucket)
  else if name.endsWith "_sum" then some (name.dropRight 4, metricSuffix.sfxSum)
  else if name.endsWith "_count" then some (name.dropRight 6, metricSuffix.sfxCount)
  else none

/-- Modelled from the spec: `getMetricType` (defined outside the provided
sources) deterministically derives the GCM metric type string from the
configured metrics prefix and the Prometheus metric name. -/
def getMetricType (mpfx name : String) : String := mpfx ++ "/" ++ name

/-- A monitored resource (`monitoredres_pb.MonitoredResource`). -/
structure MonitoredResource where
  type : String
  labels : Labels
deriving DecidableEq

/-- The parts of `monitoring_pb.TimeSeries` populated by the cache. -/
structure TimeSeries where
  metricType : String
  metricLabels : Labels
  resource : MonitoredResource
  metricKind : MetricKind
  valueType : ValueType
deriving DecidableEq

/-- The external-label merge step of `extractResource` (lines 368–375):
starting from the series label set, `Set` each configured external label
whose name the original set does not have. -/
def mergeExternal (extLabels lset : Labels) : Labels :=
  extLabels.foldl (fun b l => if hasLabel lset l.1 then b else labelsSet b l.1 l.2) lset

/-- Method `seriesCache.extractResource`: split a label set into the monitored
resource and the remaining metric labels; fails when `job` or `instance`
is missing. The cache's `getExternalLabels()` is passed as `extLabels`. -/
def extractResource (extLabels lset : Labels) : Option (MonitoredResource × Labels) :=
  if hasLabel lset keyJob = false then none
  else if hasLabel lset keyInstance = false then none
  else
    let merged := mergeExternal extLabels lset
    let mres : MonitoredResource :=
      { type := "prometheus_target"
        labels := [(keyLocation, getLabel merged keyLocation),
                   (keyCluster, getLabel merged keyCluster),
                   (keyNamespace, getLabel merged keyNamespace),
                   (keyJob, getLabel merged keyJob),
                   (keyInstance, getLabel merged keyInstance)] }
    let metricLabels :=
      labelsDel (labelsDel (labelsDel (labelsDel (labelsDel merged
        keyLocation) keyCluster) keyNamespace) keyJob) keyInstance
    some (mres, metricLabels)

/-- Result of `seriesCache.populate`: a non-nil error, a silent skip
(`return nil` without setting the proto), or success with the assembled
time series, metadata and suffix (the fields assigned to the entry). -/
inductive PopulateResult where
  | error (msg : String)
  | skip
  | ok (ts : TimeSeries) (md : MetricMetadata) (sfx : metricSuffix)
deriving DecidableEq

/-- Whether a populate result is a non-nil error. -/
def PopulateResult.isError : PopulateResult → Bool
  | .error _ => true
  | _ => false

/-- The metadata-resolution step of `populate` (lines 266–278): the full
metric name first, then the base name after stripping a complex-metric
suffix. On a direct hit the base name stays "" and the suffix stays the
zero value (no suffix). -/
def resolveMetadata (targetMd : String → Option MetricMetadata) (metricName : String) :
    Option (MetricMetadata × String × metricSuffix) :=
  match getMetadata targetMd metricName with
  | some md => some (md, "", metricSuffix.sfxNone)
  | none =>
    match splitComplexMetricSuffix metricName with
    | some (base, sfx) =>
      match getMetadata targetMd base with
      | some md => some (md, base, sfx)
      | none => none
    | none => none

/-- Method `seriesCache.populate` (lines 239–334) for an entry with label set
`lset`. The cache fields `metricsPrefix` and `getExternalLabels()` and the
target's metadata source are explicit arguments. -/
def populate (mpfx : String) (extLabels : Labels)
    (targetMd : String → Option MetricMetadata) (lset : Labels) : PopulateResult :=
  match extractResource extLabels lset with
  | none => PopulateResult.skip
  | some (resource, ml0) =>
    let ml1 := removeFirstLabel ml0 "__name__"
    if ml1.length > maxLabelCount then PopulateResult.skip
    else
      let metricName := getLabel lset "__name__"
      match resolveMetadata targetMd metricName with
      | none => PopulateResult.skip
      | some (metadata, baseMetricName, sfx) =>
        let ml2 := if metadata.type = MetricType.histogram
                   then removeFirstLabel ml1 "le" else ml1
        let ts : TimeSeries :=
          { metricType := getMetricType mpfx metricName
            metricLabels := ml2
            resource := resource
            metricKind := MetricKind.unspecified
            valueType := ValueType.unspecified }
        match metadata.type with
        | MetricType.counter =>
          PopulateResult.ok
            { ts with metricKind := MetricKind.cumulative, valueType := ValueType.double }
            metadata sfx
        | MetricType.gauge =>
          PopulateResult.ok
            { ts with metricKind := MetricKind.gauge, valueType := ValueType.double }
            metadata sfx
        | MetricType.unknown =>
          PopulateResult.ok
            { ts with metricKind := MetricKind.gauge, valueType := ValueType.double }
            metadata sfx
        | MetricType.summary =>
          match sfx with
          | metricSuffix.sfxSum =>
            PopulateResult.ok
              { ts with metricKind := MetricKind.cumulative, valueType := ValueType.double }
              metadata sfx
          | metricSuffix.sfxCount =>
            PopulateResult.ok
              { ts with metricKind := MetricKind.cumulative, valueType := ValueType.int64 }
              metadata sfx
          | metricSuffix.sfxNone =>
            PopulateResult.ok
              { ts with metricKind := MetricKind.gauge, valueType := ValueType.double }
              metadata sfx
          | metricSuffix.sfxBucket =>
            PopulateResult.error "unexpected metric name suffix _bucket"
        | MetricType.histogram =>
          PopulateResult.ok
            { ts with metricType := getMetricType mpfx baseMetricName,
                      metricKind := MetricKind.cumulative,
                      valueType := ValueType.distribution }
            metadata sfx
        | _ => PopulateResult.error "unexpected metric type"

/-- Modelled from the spec: FNV-64a offset basis (`hashNew`, defined
outside the provided sources). -/
def hashNew : Nat := 14695981039346656037

/-- Modelled from the spec: FNV-64a step over one byte (`hashAddByte`,
defined outside the provided sources), with 64-bit wraparound explicit. -/
def hashAddByte (h b : Nat) : Nat := ((h ^^^ b) * 1099511628211) % (2 ^ 64)

/-- Modelled from the spec: FNV-64a over a string (`hashAdd`, defined
outside the provided sources), folding over the characters. -/
def hashAdd (h : Nat) (s : String) : Nat :=
  s.toList.foldl (fun a c => hashAddByte a c.toNat) h

/-- Insert a pair into a name-sorted label list. -/
def insertLabel (l : String × String) : Labels → Labels
  | [] => [l]
  | x :: xs => if l.1 < x.1 then l :: x :: xs else x :: insertLabel l xs

/-- Sort labels by name, as `labels.FromMap` does before hashing. -/
def sortLabels (ls : Labels) : Labels := ls.foldr insertLabel []

/-- Function `hashSeries` (lines 435–459): a hash of the series descriptor over
resource type, metric type and the sorted resource and metric labels. -/
def hashSeries (s : TimeSeries) : Nat :=
  let sep := 255
  let step := fun h (l : String × String) =>
    hashAdd (hashAddByte (hashAdd (hashAddByte h sep) l.1) sep) l.2
  let h1 := hashAdd (hashAddByte (hashAdd hashNew s.resource.type) sep) s.metricType
  let h2 := (sortLabels s.resource.labels).foldl step h1
  (sortLabels s.metricLabels).foldl step (hashAddByte h2 sep)

/-- Structure `seriesCacheEntry`: cached per-series state. The `float64` reset value
is embedded as an exact rational. -/
structure seriesCacheEntry where
  lset : Labels
  metadata : Option MetricMetadata
  proto : Option TimeSeries
  suffix : metricSuffix
  hash : Nat
  nextRefresh : Int
  hasReset : Bool
  resetValue : Rat
  resetTimestamp : Int
deriving DecidableEq

/-- Method `seriesCacheEntry.valid`: the entry converts to a GCM series iff its
proto is set. -/
def seriesCacheEntry.valid (e : seriesCacheEntry) : Bool := e.proto.isSome

/-- A freshly created entry (`&seriesCacheEntry{lset: lset}`): every other
field holds its Go zero value. -/
def newEntry (lset : Labels) : seriesCacheEntry :=
  { lset := lset, metadata := none, proto := none, suffix := metricSuffix.sfxNone,
    hash := 0, nextRefresh := 0, hasReset := false, resetValue := 0, resetTimestamp := 0 }

/-- Structure `sampleInterval`: the most recently written time range of a series
hash. The field `end` is named `endT` (`end` is reserved in Lean). -/
structure sampleInterval where
  start : Int
  endT : Int
deriving DecidableEq

/-- Method `sampleInterval.accepts` (lines 203–205). -/
def sampleInterval.accepts (si : sampleInterval) (s e : Int) : Bool :=
  decide ((s = si.start ∧ si.endT < e) ∨ (si.start < s ∧ si.endT ≤ s))

/-- The spec's claimed acceptance predicate, written from the spec's words
(`(start==s0 && end>e0) || (start>=e0)`) for comparison with
`sampleInterval.accepts`. -/
def specClaimAccepts (s0 e0 s e : Int) : Bool :=
  decide ((s = s0 ∧ e0 < e) ∨ e0 ≤ s)

/-- Structure `seriesCache` state: the two maps guarded by the mutex. The injected
callbacks and configuration are passed to the operations explicitly. -/
structure seriesCache where
  entries : Nat → Option seriesCacheEntry
  intervals : Nat → Option sampleInterval

/-- Point update of an embedded Go map. -/
def updateMap {α : Type} (f : Nat → Option α) (k : Nat) (v : α) : Nat → Option α :=
  fun k' => if k' = k then some v else f k'

/-- Method `seriesCache.updateSampleInterval` (lines 187–197). -/
def seriesCache.updateSampleInterval (c : seriesCache) (hash : Nat) (s e : Int) :
    Bool × seriesCache :=
  match c.intervals hash with
  | none =>
    (true, { c with intervals := updateMap c.intervals hash { start := s, endT := e } })
  | some iv =>
    if iv.accepts s e then
      (true, { c with intervals := updateMap c.intervals hash { start := s, endT := e } })
    else (false, c)

/-- Method `seriesCache.getResetAdjusted` (lines 210–236). -/
def seriesCache.getResetAdjusted (c : seriesCache) (ref : Nat) (t : Int) (v : Rat) :
    (Int × Rat × Bool) × seriesCache :=
  match c.entries ref with
  | none => ((0, 0, false), c)
  | some e =>
    if e.hasReset = false then
      let e' := { e with hasReset := true, resetTimestamp := t, resetValue := v }
      ((0, 0, false), { c with entries := updateMap c.entries ref e' })
    else if v < e.resetValue then
      let e' := { e with hasReset := true, resetValue := 0, resetTimestamp := t - 1 }
      ((e'.resetTimestamp, v - e'.resetValue, true),
       { c with entries := updateMap c.entries ref e' })
    else ((e.resetTimestamp, v - e.resetValue, true), c)

/-- Method `seriesCache.garbageCollect` (lines 156–159): logs and returns nil. -/
def seriesCache.garbageCollect (c : seriesCache) : Option String × seriesCache :=
  (none, c)

/-- The refresh step shared by both branches of `get` (lines 176–181):
when the refresh deadline has passed, repopulate the entry and set the
next refresh deadline (`nextR` stands for the jittered timestamp computed
by `setNextRefresh`). -/
def refreshStep (targetMd : String → Option MetricMetadata) (mpfx : String)
    (extLabels : Labels) (nextR : Int) (c : seriesCache) (now : Int) (ref : Nat)
    (e : seriesCacheEntry) : Except String (seriesCacheEntry × Bool) × seriesCache :=
  if now > e.nextRefresh then
    match populate mpfx extLabels targetMd e.lset with
    | PopulateResult.error msg => (Except.error msg, c)
    | PopulateResult.skip =>
      let e' := { e with nextRefresh := nextR }
      (Except.ok (e', e'.valid), { c with entries := updateMap c.entries ref e' })
    | PopulateResult.ok ts md sfx =>
      let e' := { e with proto := some ts, metadata := some md, suffix := sfx,
                         hash := hashSeries ts, nextRefresh := nextR }
      (Except.ok (e', e'.valid), { c with entries := updateMap c.entries ref e' })
  else (Except.ok (e, e.valid), c)

/-- Method `seriesCache.get` (lines 161–183). `glr` is the injected
`getLabelsByRef` callback, `now` the current unix time and `nextR` the
jittered next-refresh timestamp `setNextRefresh` would store. -/
def seriesCache.get (c : seriesCache) (glr : Nat → Option Labels)
    (targetMd : String → Option MetricMetadata) (mpfx : String) (extLabels : Labels)
    (nextR : Int) (now : Int) (ref : Nat) :
    Except String (seriesCacheEntry × Bool) × seriesCache :=
  match c.entries ref with
  | some e => refreshStep targetMd mpfx extLabels nextR c now ref e
  | none =>
    match glr ref with
    | none => (Except.error "series reference invalid", c)
    | some lset =>
      let e := newEntry lset
      refreshStep targetMd mpfx extLabels nextR
        { c with entries := updateMap c.entries ref e } now ref e

/-! Concrete inputs used by witnesses and counterexamples below. -/

/-- An empty cache state. -/
def emptyCache : seriesCache := { entries := fun _ => none, intervals := fun _ => none }

/-- A cache state holding the point interval (0, 0) for hash 0. -/
def c1st : seriesCache :=
  { entries := fun _ => none,
    intervals := fun h => if h = 0 then some { start := 0, endT := 0 } else none }

/-- A cache state holding the interval (0, 10) for hash 0. -/
def c1wst : seriesCache :=
  { entries := fun _ => none,
    intervals := fun h => if h = 0 then some { start := 0, endT := 10 } else none }

/-- A fresh cache entry for a one-label series. -/
def c2wEntry : seriesCacheEntry := newEntry [("x", "y")]

/-- A cache state holding `c2wEntry` under ref 1. -/
def c2wst : seriesCache :=
  { entries := fun r => if r = 1 then some c2wEntry else none, intervals := fun _ => none }

/-- A target metadata source that provides its own metadata for `up`. -/
def c3tm : String → Option MetricMetadata :=
  fun m => if m = "up" then some { metric := "up", type := MetricType.counter, help := "custom" }
           else none

/-- A target metadata source with no metadata at all. -/
def c3wtm : String → Option MetricMetadata := fun _ => none

/-- A counter series label set. -/
def c4wlset : Labels := [("__name__", "m"), ("job", "a"), ("instance", "i")]

/-- A target metadata source typing metric `m` as a counter. -/
def c4wtm : String → Option MetricMetadata :=
  fun m => if m = "m" then some { metric := "m", type := MetricType.counter, help := "" }
           else none

/-- The metadata `c4wtm` resolves for metric `m`. -/
def c4wmd : MetricMetadata := { metric := "m", type := MetricType.counter, help := "" }

/-- The time series `populate` assembles for `c4wlset` against `c4wtm`. -/
def c4wts : TimeSeries :=
  { metricType := "p/m"
    metricLabels := []
    resource :=
      { type := "prometheus_target"
        labels := [(keyLocation, ""), (keyCluster, ""), (keyNamespace, ""),
                   (keyJob, "a"), (keyInstance, "i")] }
    metricKind := MetricKind.cumulative
    valueType := ValueType.double }

/-- A small series label set for the C5 scenario. -/
def c5lset : Labels := [("__name__", "m"), ("job", "a"), ("instance", "i")]

/-- One hundred and one configured external labels. -/
def c5ext2 : Labels := (List.range 101).map (fun i => ("a" ++ toString i, "v"))

/-- A label-resolution callback resolving ref 5 to `c5lset`. -/
def c5glr : Nat → Option Labels := fun r => if r = 5 then some c5lset else none

/-- A target metadata source typing metric `m` as a gauge. -/
def c5tm : String → Option MetricMetadata :=
  fun m => if m = "m" then some { metric := "m", type := MetricType.gauge, help := "" }
           else none

/-- First `get`: no external labels configured, so the entry populates. -/
def c5call1 : Except String (seriesCacheEntry × Bool) × seriesCache :=
  emptyCache.get c5glr c5tm "p" [] 0 1 5

/-- Second `get` after the external labels grew past the label cap. -/
def c5call2 : Except String (seriesCacheEntry × Bool) × seriesCache :=
  c5call1.2.get c5glr c5tm "p" c5ext2 0 1 5

/-- The `valid` flag the second `get` returns. -/
def c5valid2 : Bool :=
  match c5call2.1 with
  | Except.ok (_, v) => v
  | Except.error _ => false

/-- The metric labels `extractResource` leaves for the second `get`. -/
def c5ml0 : Labels :=
  match extractResource c5ext2 c5lset with
  | some (_, ml) => ml
  | none => []

/-- A series label set that itself carries 101 non-resource labels. -/
def c5wlset : Labels :=
  ("__name__", "m") :: ("job", "a") :: ("instance", "i") ::
    (List.range 101).map (fun i => ("b" ++ toString i, "v"))

/-- A label-resolution callback resolving ref 5 to `c5wlset`. -/
def c5wglr : Nat → Option Labels := fun r => if r = 5 then some c5wlset else none

/-- Configured external labels for the C6 witness. -/
def c6wext : Labels := [("location", "exloc"), ("job", "exjob")]

/-- A series label set for the C6 witness. -/
def c6wlset : Labels := [("job", "a"), ("instance", "i")]

/-- A cache state holding the interval (0, 10) for hash 7. -/
def c8wst : seriesCache :=
  { entries := fun _ => none,
    intervals := fun h => if h = 7 then some { start := 0, endT := 10 } else none }

/-- A label-resolution callback resolving no refs. -/
def c9wglr : Nat → Option Labels := fun _ => none

/-- A target metadata source with no metadata, for the C9 witness. -/
def c9wtm : String → Option MetricMetadata := fun _ => none

/-- A populated entry whose refresh deadline is unix time 10. -/
def c9we : seriesCacheEntry := { newEntry [("x", "y")] with nextRefresh := 10 }

/-- A cache state holding `c9we` under ref 1. -/
def c9wst : seriesCache :=
  { entries := fun r => if r = 1 then some c9we else none, intervals := fun _ => none }

/-- A cache state with one entry and one interval. -/
def c10wst : seriesCache :=
  { entries := fun r => if r = 1 then some c2wEntry else none,
    intervals := fun h => if h = 0 then some { start := 0, endT := 10 } else none }

/-! Lemmas about the label operations. -/

/-- Membership distributes over append. -/
theorem hasLabel_append (a b : Labels) (n : String) :
    hasLabel (a ++ b) n = (hasLabel a n || hasLabel b n) := by
  induction a with
  | nil => simp [hasLabel]
  | cons x xs ih => simp [hasLabel, ih, Bool.or_assoc]

/-- The value-replacement map of `labelsSet` does not change which names
are present. -/
theorem hasLabel_setmap (b : Labels) (m v x : String) :
    hasLabel (b.map (fun l => if l.1 = m then (m, v) else l)) x = hasLabel b x := by
  induction b with
  | nil => rfl
  | cons a t ih =>
    by_cases ham : a.1 = m <;> simp [hasLabel, ham, ih]

/-- After `labelsSet` the name is present. -/
theorem hasLabel_labelsSet_self (b : Labels) (n v : String) :
    hasLabel (labelsSet b n v) n = true := by
  unfold labelsSet
  split_ifs with hb
  · rw [hasLabel_setmap]; exact hb
  · rw [hasLabel_append]; simp [hasLabel]

/-- Names present before `labelsSet` stay present. -/
theorem hasLabel_labelsSet_mono (b : Labels) (m v x : String) (h : hasLabel b x = true) :
    hasLabel (labelsSet b m v) x = true := by
  unfold labelsSet
  split_ifs with hb
  · rw [hasLabel_setmap]; exact h
  · rw [hasLabel_append]; simp [h]

/-- The value-replacement map of `labelsSet` leaves other names' values
unchanged. -/
theorem getLabel_setmap_ne (b : Labels) (m v x : String) (hmx : m ≠ x) :
    getLabel (b.map (fun l => if l.1 = m then (m, v) else l)) x = getLabel b x := by
  induction b with
  | nil => rfl
  | cons a t ih =>
    by_cases ham : a.1 = m
    · simp [getLabel, ham, hmx, ih]
    · by_cases hax : a.1 = x
      · simp [getLabel, ham, hax, ih, Ne.symm hmx]
      · simp [getLabel, ham, hax, ih]

/-- Appending a pair with a different name leaves a lookup unchanged. -/
theorem getLabel_append_single_ne (b : Labels) (m v x : String) (hmx : m ≠ x) :
    getLabel (b ++ [(m, v)]) x = getLabel b x := by
  induction b with
  | nil => simp [getLabel, hmx]
  | cons a t ih => by_cases hax : a.1 = x <;> simp [getLabel, hax, ih]

/-- Setting one name leaves other names' values unchanged. -/
theorem getLabel_labelsSet_ne (b : Labels) (m v x : String) (hmx : m ≠ x) :
    getLabel (labelsSet b m v) x = getLabel b x := by
  unfold labelsSet
  split_ifs with hb
  · exact getLabel_setmap_ne b m v x hmx
  · exact getLabel_append_single_ne b m v x hmx

/-- Membership in terms of the name list. -/
theorem hasLabel_iff_mem_names (ls : Labels) (n : String) :
    hasLabel ls n = true ↔ n ∈ ls.map Prod.fst := by
  induction ls with
  | nil => simp [hasLabel]
  | cons a t ih =>
    by_cases han : a.1 = n
    · simp [hasLabel, han]
    · simp [hasLabel, han, ih, Ne.symm han]

/-- The value-replacement map of `labelsSet` keeps the name list. -/
theorem names_setmap (b : Labels) (m v : String) :
    (b.map (fun l => if l.1 = m then (m, v) else l)).map Prod.fst = b.map Prod.fst := by
  induction b with
  | nil => rfl
  | cons a t ih => by_cases ham : a.1 = m <;> simp [ham, ih]

/-- Name-distinctness is preserved by `labelsSet`. -/
theorem namesNodup_labelsSet (b : Labels) (m v : String) (h : namesNodup b) :
    namesNodup (labelsSet b m v) := by
  unfold labelsSet namesNodup at *
  split_ifs with hb
  · rw [names_setmap]; exact h
  · rw [List.map_append, List.nodup_append]
    refine ⟨h, List.nodup_singleton m, ?_⟩
    intro x hx hm
    simp only [List.map_cons, List.map_nil, List.mem_singleton] at hm
    subst hm
    exact hb ((hasLabel_iff_mem_names b x).mpr hx)

/-- Name-distinctness is preserved by the external-label merge fold. -/
theorem namesNodup_merge_aux (lset : Labels) :
    ∀ (extLabels b : Labels), namesNodup b →
      namesNodup (extLabels.foldl
        (fun b l => if hasLabel lset l.1 then b else labelsSet b l.1 l.2) b) := by
  intro extLabels
  induction extLabels with
  | nil => intro b h; exact h
  | cons l rest ih =>
    intro b h
    simp only [List.foldl_cons]
    apply ih
    split_ifs with hl
    · exact h
    · exact namesNodup_labelsSet b l.1 l.2 h

/-- Name-distinctness is preserved by `mergeExternal`. -/
theorem namesNodup_mergeExternal (extLabels lset : Labels) (h : namesNodup lset) :
    namesNodup (mergeExternal extLabels lset) :=
  namesNodup_merge_aux lset extLabels lset h

/-- Deleting a name yields a sublist. -/
theorem labelsDel_sublist (ls : Labels) (n : String) : List.Sublist (labelsDel ls n) ls := by
  induction ls with
  | nil => exact List.Sublist.refl []
  | cons a t ih =>
    unfold labelsDel
    split_ifs with h
    · exact ih.cons a
    · exact ih.cons₂ a

/-- Name-distinctness is preserved by `labelsDel`. -/
theorem namesNodup_labelsDel (ls : Labels) (n : String) (h : namesNodup ls) :
    namesNodup (labelsDel ls n) :=
  List.Nodup.sublist ((labelsDel_sublist ls n).map Prod.fst) h

/-- Removing the first occurrence of a name yields a sublist. -/
theorem removeFirstLabel_sublist (ls : Labels) (n : String) :
    List.Sublist (removeFirstLabel ls n) ls := by
  induction ls with
  | nil => exact List.Sublist.refl []
  | cons a t ih =>
    unfold removeFirstLabel
    split_ifs with h
    · exact (List.Sublist.refl t).cons a
    · exact ih.cons₂ a

/-- Name-distinctness is preserved by `removeFirstLabel`. -/
theorem namesNodup_removeFirstLabel (ls : Labels) (n : String) (h : namesNodup ls) :
    namesNodup (removeFirstLabel ls n) :=
  List.Nodup.sublist ((removeFirstLabel_sublist ls n).map Prod.fst) h

/-- On a duplicate-free label set, removing the first occurrence of a name
removes the name entirely. -/
theorem hasLabel_removeFirstLabel_self (ls : Labels) (n : String) (h : namesNodup ls) :
    hasLabel (removeFirstLabel ls n) n = false := by
  induction ls with
  | nil => rfl
  | cons a t ih =>
    unfold namesNodup at h
    rw [List.map_cons, List.nodup_cons] at h
    obtain ⟨hna, hnt⟩ := h
    unfold removeFirstLabel
    split_ifs with ha
    · subst ha
      rcases hh : hasLabel t a.1 with _ | _
      · rfl
      · exact absurd ((hasLabel_iff_mem_names t a.1).mp hh) hna
    · simp [hasLabel, ha, ih hnt]

/-- A successful `extractResource` yields duplicate-free metric labels. -/
theorem extractResource_nodup (extLabels lset : Labels) (res : MonitoredResource)
    (ml : Labels) (h : extractResource extLabels lset = some (res, ml))
    (hn : namesNodup lset) : namesNodup ml := by
  unfold extractResource at h
  split_ifs at h with h1 h2
  have h' := Option.some.inj h
  rw [Prod.mk.injEq] at h'
  rw [← h'.2]
  exact namesNodup_labelsDel _ _ (namesNodup_labelsDel _ _ (namesNodup_labelsDel _ _
    (namesNodup_labelsDel _ _ (namesNodup_labelsDel _ _
      (namesNodup_mergeExternal extLabels lset hn)))))

/-- The external-label merge fold never changes the value of a name the
original label set already has. -/
theorem foldl_merge_keeps (lset : Labels) (n : String) (hn : hasLabel lset n = true) :
    ∀ (extLabels b : Labels),
      getLabel (extLabels.foldl
        (fun b l => if hasLabel lset l.1 then b else labelsSet b l.1 l.2) b) n =
      getLabel b n := by
  intro extLabels
  induction extLabels with
  | nil => intro b; rfl
  | cons l rest ih =>
    intro b
    simp only [List.foldl_cons]
    rw [ih]
    split_ifs with hl
    · rfl
    · refine getLabel_labelsSet_ne b l.1 l.2 n fun heq => ?_
      rw [heq] at hl
      exact hl hn

/-- The external-label merge fold keeps every name its accumulator has. -/
theorem foldl_merge_mono (lset : Labels) (n : String) :
    ∀ (extLabels b : Labels), hasLabel b n = true →
      hasLabel (extLabels.foldl
        (fun b l => if hasLabel lset l.1 then b else labelsSet b l.1 l.2) b) n = true := by
  intro extLabels
  induction extLabels with
  | nil => intro b h; exact h
  | cons l rest ih =>
    intro b h
    simp only [List.foldl_cons]
    apply ih
    split_ifs with hl
    · exact h
    · exact hasLabel_labelsSet_mono b l.1 l.2 n h

/-- The external-label merge fold adds every external name the original
label set does not have. -/
theorem foldl_merge_adds (lset : Labels) (n v : String) (hn : hasLabel lset n = false) :
    ∀ (extLabels b : Labels), (n, v) ∈ extLabels →
      hasLabel (extLabels.foldl
        (fun b l => if hasLabel lset l.1 then b else labelsSet b l.1 l.2) b) n = true := by
  intro extLabels
  induction extLabels with
  | nil => intro b hmem; cases hmem
  | cons l rest ih =>
    intro b hmem
    simp only [List.foldl_cons]
    rcases List.mem_cons.mp hmem with heq | hmem'
    · subst heq
      rw [if_neg (by simp [hn])]
      exact foldl_merge_mono lset n rest _ (hasLabel_labelsSet_self b n v)
    · exact ih _ hmem'

/-! Claim theorems. -/

/-- C1 counterexample: with interval (0, 0) stored for hash 0, the
candidate (0, 0) satisfies the claim's acceptance predicate
`(start==s0 && end>e0) || (start>=e0)`, yet `updateSampleInterval`
rejects it (the code additionally requires `start > s0` in the second
disjunct). -/
theorem c1_claim_counterexample :
    specClaimAccepts 0 0 0 0 = true ∧
    (c1st.updateSampleInterval 0 0 0).1 = false := by decide

/-- C1 (amended): with an interval (s0, e0) stored for the hash,
`updateSampleInterval(hash, start, end)` returns true and stores the
candidate iff `(start = s0 ∧ end > e0) ∨ (start > s0 ∧ start ≥ e0)`;
with no stored interval, any candidate is accepted and stored. -/
theorem c1_update_sample_interval (st : seriesCache) (h : Nat) (s e : Int) :
    (∀ s0 e0, st.intervals h = some { start := s0, endT := e0 } →
      ((st.updateSampleInterval h s e).1 = true ↔
        ((s = s0 ∧ e0 < e) ∨ (s0 < s ∧ e0 ≤ s))) ∧
      ((st.updateSampleInterval h s e).1 = true →
        (st.updateSampleInterval h s e).2.intervals h = some { start := s, endT := e })) ∧
    (st.intervals h = none →
      (st.updateSampleInterval h s e).1 = true ∧
      (st.updateSampleInterval h s e).2.intervals h = some { start := s, endT := e }) := by
  constructor
  · intro s0 e0 hsome
    simp only [seriesCache.updateSampleInterval, hsome]
    constructor
    · split_ifs with hacc
      · simpa [sampleInterval.accepts] using hacc
      · simp only [sampleInterval.accepts, decide_eq_true_eq] at hacc
        simpa using hacc
    · intro _
      split_ifs with hacc
      · simp [updateMap]
      · simp_all
  · intro hnone
    simp [seriesCache.updateSampleInterval, hnone, updateMap]

/-- C1 witness: with interval (0, 10) stored for hash 0, the candidate
(0, 20) extends the end and is accepted and stored. -/
theorem c1_update_sample_interval_witness :
    ((c1wst.updateSampleInterval 0 0 20).1 = true ↔
      (((0:Int) = 0 ∧ (10:Int) < 20) ∨ ((0:Int) < 0 ∧ (10:Int) ≤ 0))) ∧
    ((c1wst.updateSampleInterval 0 0 20).1 = true →
      (c1wst.updateSampleInterval 0 0 20).2.intervals 0 = some { start := 0, endT := 20 }) :=
  (c1_update_sample_interval c1wst 0 0 20).1 0 10 (by decide)

/-- C8: whenever `updateSampleInterval` rejects, the whole cache state —
the stored interval for that hash and every other hash's interval — is
exactly what it was before the call. -/
theorem c8_reject_preserves_state (st : seriesCache) (h : Nat) (s e : Int)
    (hrej : (st.updateSampleInterval h s e).1 = false) :
    (st.updateSampleInterval h s e).2 = st := by
  rcases hiv : st.intervals h with _ | iv
  · simp only [seriesCache.updateSampleInterval, hiv] at hrej
    exact absurd hrej (by simp)
  · simp only [seriesCache.updateSampleInterval, hiv] at hrej ⊢
    split_ifs at hrej ⊢ with hacc
    rfl

/-- C8 witness: with interval (0, 10) stored for hash 7, the overlapping
candidate (5, 15) is rejected and the state is untouched. -/
theorem c8_reject_preserves_state_witness :
    (c8wst.updateSampleInterval 7 5 15).2 = c8wst :=
  c8_reject_preserves_state c8wst 7 5 15 (by decide)

/-- C10: `garbageCollect` always returns a nil error and leaves both the
entries map and the intervals map completely unchanged. -/
theorem c10_garbage_collect_noop (st : seriesCache) :
    st.garbageCollect = (none, st) ∧
    st.garbageCollect.2.entries = st.entries ∧
    st.garbageCollect.2.intervals = st.intervals :=
  ⟨rfl, rfl, rfl⟩

/-- C7: a label set missing `job` or missing `instance` makes
`extractResource` fail with no monitored resource and no metric labels. -/
theorem c7_missing_identity_labels (extLabels lset : Labels)
    (h : hasLabel lset keyJob = false ∨ hasLabel lset keyInstance = false) :
    extractResource extLabels lset = none := by
  rcases h with h | h
  · simp [extractResource, h]
  · by_cases hj : hasLabel lset keyJob = false
    · simp [extractResource, hj]
    · simp [extractResource, hj, h]

/-- C7 witness: a label set with `job` but no `instance` is rejected. -/
theorem c7_missing_identity_labels_witness :
    extractResource [] [("job", "a")] = none :=
  c7_missing_identity_labels [] [("job", "a")] (Or.inr (by decide))

/-- C10 witness: `garbageCollect` on a state with one entry and one
interval returns nil and changes nothing. -/
theorem c10_garbage_collect_noop_witness :
    c10wst.garbageCollect = (none, c10wst) ∧
    c10wst.garbageCollect.2.entries = c10wst.entries ∧
    c10wst.garbageCollect.2.intervals = c10wst.intervals :=
  c10_garbage_collect_noop c10wst

/-- C2: for a cached series ref, `getResetAdjusted(ref, t, v)` on the
first sample records (t, v) as the baseline and returns ok = false; on a
later sample with v ≥ baseline it returns the unchanged baseline
timestamp and v minus the baseline value with ok = true, mutating
nothing; on a later sample with v < baseline it sets the baseline value
to 0 and the baseline timestamp to t - 1 and returns (t - 1, v, true). -/
theorem c2_get_reset_adjusted (st : seriesCache) (ref : Nat) (e : seriesCacheEntry)
    (t : Int) (v : Rat) (he : st.entries ref = some e) :
    (e.hasReset = false →
      (st.getResetAdjusted ref t v).1 = (0, 0, false) ∧
      (st.getResetAdjusted ref t v).2.entries ref =
        some { e with hasReset := true, resetTimestamp := t, resetValue := v }) ∧
    (e.hasReset = true → e.resetValue ≤ v →
      (st.getResetAdjusted ref t v).1 = (e.resetTimestamp, v - e.resetValue, true) ∧
      (st.getResetAdjusted ref t v).2 = st) ∧
    (e.hasReset = true → v < e.resetValue →
      (st.getResetAdjusted ref t v).1 = (t - 1, v, true) ∧
      (st.getResetAdjusted ref t v).2.entries ref =
        some { e with hasReset := true, resetValue := 0, resetTimestamp := t - 1 }) := by
  refine ⟨fun h0 => ?_, fun h1 hge => ?_, fun h1 hlt => ?_⟩ <;>
    simp only [seriesCache.getResetAdjusted, he]
  · simp [h0, updateMap]
  · rw [if_neg (by simp [h1]), if_neg (not_lt.mpr hge)]
    exact ⟨rfl, rfl⟩
  · rw [if_neg (by simp [h1]), if_pos hlt]
    simp [updateMap]

/-- C2 witness: on the fresh entry under ref 1, the first sample
(t = 100, v = 5) is recorded as the baseline and skipped. -/
theorem c2_get_reset_adjusted_witness :
    (c2wst.getResetAdjusted 1 100 5).1 = (0, 0, false) ∧
    (c2wst.getResetAdjusted 1 100 5).2.entries 1 =
      some { c2wEntry with hasReset := true, resetTimestamp := 100, resetValue := 5 } :=
  (c2_get_reset_adjusted c2wst 1 c2wEntry 100 5 (by decide)).1 rfl

/-- C9: for a ref whose entry exists and whose refresh deadline has not
passed, `get` performs no re-population: it returns the same entry with
its validity and leaves the state untouched, and a second call before the
deadline returns exactly the same result. -/
theorem c9_get_idempotent (st : seriesCache) (glr : Nat → Option Labels)
    (targetMd : String → Option MetricMetadata) (mpfx : String) (extLabels : Labels)
    (nextR : Int) (now now' : Int) (ref : Nat) (e : seriesCacheEntry)
    (h1 : st.entries ref = some e) (h2 : ¬ now > e.nextRefresh)
    (h2' : ¬ now' > e.nextRefresh) :
    st.get glr targetMd mpfx extLabels nextR now ref = (Except.ok (e, e.valid), st) ∧
    st.get glr targetMd mpfx extLabels nextR now' ref = (Except.ok (e, e.valid), st) := by
  constructor <;> simp [seriesCache.get, refreshStep, h1, h2, h2']

/-- C9 witness: the entry under ref 1 refreshes at unix time 10; two calls
at time 5 both return it unchanged. -/
theorem c9_get_idempotent_witness :
    c9wst.get c9wglr c9wtm "p" [] 0 5 1 = (Except.ok (c9we, c9we.valid), c9wst) ∧
    c9wst.get c9wglr c9wtm "p" [] 0 5 1 = (Except.ok (c9we, c9we.valid), c9wst) :=
  c9_get_idempotent c9wst c9wglr c9wtm "p" [] 0 5 5 1 c9we (by decide) (by decide) (by decide)

/-- C3 counterexample: when the scrape target itself provides metadata for
the well-known internal metric `up`, `getMetadata` returns the target's
metadata, not the synthetic entry the claim prescribes. -/
theorem c3_claim_counterexample :
    getMetadata c3tm "up" =
      some { metric := "up", type := MetricType.counter, help := "custom" } ∧
    internalMetrics "up" ≠
      some { metric := "up", type := MetricType.counter, help := "custom" } := by
  decide

/-- C3 (amended): `getMetadata` consults target-provided metadata first
for every metric name; only when the target has none does it fall back to
the synthetic table, which covers exactly the five well-known internal
scrape metric names. -/
theorem c3_get_metadata (targetMd : String → Option MetricMetadata) (m : String) :
    (∀ md, targetMd m = some md → getMetadata targetMd m = some md) ∧
    (targetMd m = none → getMetadata targetMd m = internalMetrics m) ∧
    ((internalMetrics m).isSome = true ↔
      m = "up" ∨ m = "scrape_samples_scraped" ∨ m = "scrape_duration_seconds" ∨
      m = "scrape_samples_post_metric_relabeling" ∨ m = "scrape_series_added") := by
  refine ⟨fun md hmd => ?_, fun hn => ?_, ?_⟩
  · simp [getMetadata, hmd]
  · simp [getMetadata, hn]
  · unfold internalMetrics
    split_ifs with h1 h2 h3 h4 h5 <;> simp_all

/-- C3 witness: with a target providing no metadata, looking up `up` falls
back to the synthetic table. -/
theorem c3_get_metadata_witness :
    getMetadata c3wtm "up" = internalMetrics "up" :=
  (c3_get_metadata c3wtm "up").2.1 rfl

/-- C6: for label sets with `job` and `instance`, extraction succeeds and
the external-label merge adds an external label only when its name is
absent from the original label set: on a collision the original value is
kept, and absent external names are merged in. -/
theorem c6_external_label_merge (extLabels lset : Labels) (n : String)
    (hj : hasLabel lset keyJob = true) (hi : hasLabel lset keyInstance = true) :
    (extractResource extLabels lset).isSome = true ∧
    (hasLabel lset n = true →
      getLabel (mergeExternal extLabels lset) n = getLabel lset n) ∧
    (hasLabel lset n = false → ∀ v, (n, v) ∈ extLabels →
      hasLabel (mergeExternal extLabels lset) n = true) := by
  refine ⟨?_, fun h => ?_, fun h v hv => ?_⟩
  · simp [extractResource, hj, hi]
  · exact foldl_merge_keeps lset n h extLabels lset
  · exact foldl_merge_adds lset n v h extLabels lset hv

/-- C6 witness: with external labels location/job configured, the
colliding name `job` keeps the original value "a". -/
theorem c6_external_label_merge_witness :
    getLabel (mergeExternal c6wext c6wlset) "job" = getLabel c6wlset "job" :=
  ((c6_external_label_merge c6wext c6wlset "job" (by decide) (by decide)).2.1) (by decide)

/-- C4: whenever `populate` succeeds, counters map to CUMULATIVE/DOUBLE,
gauges and unknown to GAUGE/DOUBLE, histograms to CUMULATIVE/DISTRIBUTION
with the `le` bucket-boundary label removed, and summaries decompose by
suffix into CUMULATIVE/DOUBLE (`_sum`), CUMULATIVE/INT64 (`_count`) and
GAUGE/DOUBLE (quantiles, no suffix); and any other metric type reaching
the conversion switch yields a non-nil error, never a silent drop. -/
theorem c4_populate_classification (mpfx : String) (extLabels : Labels)
    (targetMd : String → Option MetricMetadata) (lset : Labels) (hn : namesNodup lset) :
    (∀ ts md sfx, populate mpfx extLabels targetMd lset = PopulateResult.ok ts md sfx →
      (md.type = MetricType.counter →
        ts.metricKind = MetricKind.cumulative ∧ ts.valueType = ValueType.double) ∧
      (md.type = MetricType.gauge ∨ md.type = MetricType.unknown →
        ts.metricKind = MetricKind.gauge ∧ ts.valueType = ValueType.double) ∧
      (md.type = MetricType.histogram →
        ts.metricKind = MetricKind.cumulative ∧ ts.valueType = ValueType.distribution ∧
        hasLabel ts.metricLabels "le" = false) ∧
      (md.type = MetricType.summary →
        (sfx = metricSuffix.sfxSum →
          ts.metricKind = MetricKind.cumulative ∧ ts.valueType = ValueType.double) ∧
        (sfx = metricSuffix.sfxCount →
          ts.metricKind = MetricKind.cumulative ∧ ts.valueType = ValueType.int64) ∧
        (sfx = metricSuffix.sfxNone →
          ts.metricKind = MetricKind.gauge ∧ ts.valueType = ValueType.double))) ∧
    (∀ res ml0 md base sfx,
      extractResource extLabels lset = some (res, ml0) →
      ¬ (removeFirstLabel ml0 "__name__").length > maxLabelCount →
      resolveMetadata targetMd (getLabel lset "__name__") = some (md, base, sfx) →
      (md.type = MetricType.gaugehistogram ∨ md.type = MetricType.info ∨
        md.type = MetricType.stateset) →
      (populate mpfx extLabels targetMd lset).isError = true) := by
  constructor
  · intro ts md sfx hpop
    unfold populate at hpop
    split at hpop
    · exact absurd hpop (by simp)
    · rename_i res ml0 hres
      simp only [] at hpop
      split at hpop
      · exact absurd hpop (by simp)
      · rename_i hcap
        split at hpop
        · exact absurd hpop (by simp)
        · rename_i md' base sfx' hmeta
          cases htype : md'.type <;> simp only [htype] at hpop
          case counter =>
            injection hpop with hts hmd hsfx
            subst hts; subst hmd; subst hsfx
            simp [htype]
          case gauge =>
            injection hpop with hts hmd hsfx
            subst hts; subst hmd; subst hsfx
            simp [htype]
          case unknown =>
            injection hpop with hts hmd hsfx
            subst hts; subst hmd; subst hsfx
            simp [htype]
          case histogram =>
            injection hpop with hts hmd hsfx
            subst hts; subst hmd; subst hsfx
            have hle : hasLabel (removeFirstLabel (removeFirstLabel ml0 "__name__") "le")
                "le" = false :=
              hasLabel_removeFirstLabel_self _ _
                (namesNodup_removeFirstLabel _ _ (extractResource_nodup _ _ _ _ hres hn))
            simp [htype, hle]
          case gaugehistogram => exact absurd hpop (by simp)
          case info => exact absurd hpop (by simp)
          case stateset => exact absurd hpop (by simp)
          case summary =>
            cases sfx' <;> simp only [] at hpop
            case sfxNone =>
              injection hpop with hts hmd hsfx
              subst hts; subst hmd; subst hsfx
              simp [htype]
            case sfxSum =>
              injection hpop with hts hmd hsfx
              subst hts; subst hmd; subst hsfx
              simp [htype]
            case sfxCount =>
              injection hpop with hts hmd hsfx
              subst hts; subst hmd; subst hsfx
              simp [htype]
            case sfxBucket => exact absurd hpop (by simp)
  · intro res ml0 md base sfx hres hcap hmeta hty
    unfold populate
    rw [hres]
    simp only []
    rw [if_neg hcap, hmeta]
    rcases hty with h | h | h <;> simp [h, PopulateResult.isError]

/-- C4 witness: a counter series assembles to CUMULATIVE/DOUBLE. -/
theorem c4_populate_classification_witness :
    c4wts.metricKind = MetricKind.cumulative ∧ c4wts.valueType = ValueType.double :=
  ((c4_populate_classification "p" [] c4wtm c4wlset (by decide)).1 c4wts c4wmd
    metricSuffix.sfxNone (by decide)).1 rfl

set_option maxRecDepth 10000 in
/-- C5 counterexample: a series (ref 5) first populates successfully with
no external labels; the external labels then grow to 101 entries, so at
the next refresh the remaining metric labels exceed the cap — yet `get`
returns valid = true, because the skip path of `populate` leaves the
previously populated proto in place. The claim's `valid=false` therefore
does not hold for every series whose labels exceed the cap. -/
theorem c5_claim_counterexample :
    (removeFirstLabel c5ml0 "__name__").length > maxLabelCount ∧ c5valid2 = true := by
  decide

/-- C5 (amended): for a series whose remaining metric labels (after
resource extraction and `__name__` removal) exceed the label cap, and
whose cache entry has no previously populated proto (a fresh or
never-populated series), `get` returns valid = false with a nil error and
the stored entry's proto stays unset. -/
theorem c5_label_cap (glr : Nat → Option Labels) (targetMd : String → Option MetricMetadata)
    (mpfx : String) (extLabels : Labels) (nextR : Int) (st : seriesCache) (now : Int)
    (ref : Nat) (lset : Labels)
    (hentry : (st.entries ref = none ∧ glr ref = some lset) ∨
              (∃ e, st.entries ref = some e ∧ e.proto = none ∧ e.lset = lset))
    (hcap : ∃ res ml0, extractResource extLabels lset = some (res, ml0) ∧
            (removeFirstLabel ml0 "__name__").length > maxLabelCount) :
    ∃ e' st', st.get glr targetMd mpfx extLabels nextR now ref =
        (Except.ok (e', false), st') ∧
      e'.proto = none ∧ st'.entries ref = some e' := by
  obtain ⟨res, ml0, hres, hlen⟩ := hcap
  have hpop : populate mpfx extLabels targetMd lset = PopulateResult.skip := by
    unfold populate
    rw [hres]
    simp only []
    rw [if_pos hlen]
  rcases hentry with ⟨hnone, hglr⟩ | ⟨e, hsome, hproto, hlset⟩
  · simp only [seriesCache.get, hnone, hglr]
    unfold refreshStep
    split_ifs with htime
    · rw [show (newEntry lset).lset = lset from rfl, hpop]
      exact ⟨_, _, rfl, rfl, by simp [updateMap]⟩
    · exact ⟨_, _, rfl, rfl, by simp [updateMap]⟩
  · simp only [seriesCache.get, hsome]
    unfold refreshStep
    split_ifs with htime
    · have hpop' : populate mpfx extLabels targetMd e.lset = PopulateResult.skip := by
        rw [hlset]; exact hpop
      rw [hpop']
      simp only []
      have hv : ({ e with nextRefresh := nextR } : seriesCacheEntry).valid = false := by
        simp [seriesCacheEntry.valid, hproto]
      rw [hv]
      exact ⟨_, _, rfl, hproto, by simp [updateMap]⟩
    · refine ⟨e, st, ?_, hproto, hsome⟩
      have hv : e.valid = false := by simp [seriesCacheEntry.valid, hproto]
      rw [hv]

set_option maxRecDepth 10000 in
/-- C5 witness: a fresh series whose label set carries 101 non-resource
labels is dropped with valid = false, a nil error and an unset proto. -/
theorem c5_label_cap_witness :
    ∃ e' st', emptyCache.get c5wglr c5tm "p" [] 0 1 5 = (Except.ok (e', false), st') ∧
      e'.proto = none ∧ st'.entries 5 = some e' :=
  c5_label_cap c5wglr c5tm "p" [] 0 emptyCache 1 5 c5wlset
    (Or.inl ⟨rfl, rfl⟩) ⟨_, _, rfl, by decide⟩
